import Mathlib

/-!
Verification of the aws-lc-rs safety layer: EC signature format conversion,
EC key validation and construction, RSA key-pair invariants, and the AEAD
nonce sequences.  Byte strings are modelled as `List Nat` with every element
below 256; machine counters are `Nat` with explicit reduction modulo `2 ^ 64`.
-/

set_option maxHeartbeats 1000000
set_option maxRecDepth 4096

namespace AwsLcRs

/-- A byte string: every element is an octet value. -/
def isBytes (bs : List Nat) : Prop := ∀ b ∈ bs, b < 256

instance (bs : List Nat) : Decidable (isBytes bs) := by
  unfold isBytes; infer_instance

/-- Big-endian interpretation of a byte string as an unsigned integer
(model of `BN_bin2bn`, used by `DetachableLcPtr::try_from(&[u8])`). -/
def beBytesToNat : List Nat → Nat
  | [] => 0
  | b :: rest => b * 256 ^ rest.length + beBytesToNat rest

/-- Fuel-indexed helper for `natToBEBytes` (structural recursion keeps the
function computable by the kernel; any fuel of at least `n` gives the same
result). -/
def natToBEBytesAux (fuel n : Nat) : List Nat :=
  match fuel with
  | 0 => []
  | f + 1 => if n = 0 then [] else natToBEBytesAux f (n / 256) ++ [n % 256]

/-- Minimal big-endian byte encoding of an unsigned integer: the
`BN_num_bytes`-sized output of `BN_bn2bin`, i.e. the buffer returned by
`ConstPointer::<BIGNUM>::to_be_bytes` (empty for zero). -/
def natToBEBytes (n : Nat) : List Nat := natToBEBytesAux n n

/-- A byte string with no leading zero octet (the shape `BN_bn2bin` emits). -/
def noLeadingZero : List Nat → Prop
  | [] => True
  | b :: _ => b ≠ 0

instance (bs : List Nat) : Decidable (noLeadingZero bs) := by
  cases bs <;> simp [noLeadingZero] <;> infer_instance

theorem beBytesToNat_nil : beBytesToNat [] = 0 := rfl

theorem beBytesToNat_cons (b : Nat) (t : List Nat) :
    beBytesToNat (b :: t) = b * 256 ^ t.length + beBytesToNat t := rfl

theorem beBytesToNat_append_singleton (ys : List Nat) (b : Nat) :
    beBytesToNat (ys ++ [b]) = 256 * beBytesToNat ys + b := by
  induction ys with
  | nil => simp [beBytesToNat]
  | cons y t ih =>
      simp only [List.cons_append, beBytesToNat_cons, ih, List.length_append,
        List.length_cons, List.length_nil]
      ring

theorem beBytesToNat_lt (bs : List Nat) (h : isBytes bs) :
    beBytesToNat bs < 256 ^ bs.length := by
  induction bs with
  | nil => simp [beBytesToNat]
  | cons b t ih =>
      have hb : b < 256 := h b (List.mem_cons_self _ _)
      have ht : beBytesToNat t < 256 ^ t.length :=
        ih (fun x hx => h x (List.mem_cons_of_mem _ hx))
      have hb' : b ≤ 255 := by omega
      calc beBytesToNat (b :: t) = b * 256 ^ t.length + beBytesToNat t := rfl
        _ < b * 256 ^ t.length + 256 ^ t.length := by omega
        _ = (b + 1) * 256 ^ t.length := by ring
        _ ≤ 256 * 256 ^ t.length := by
              exact Nat.mul_le_mul_right _ (by omega)
        _ = 256 ^ (b :: t).length := by
              simp [List.length_cons, pow_succ]; ring

theorem beBytesToNat_pos (b : Nat) (t : List Nat) (hb : b ≠ 0) :
    0 < beBytesToNat (b :: t) := by
  have : 0 < 256 ^ t.length := Nat.pos_pow_of_pos _ (by omega)
  have : 0 < b * 256 ^ t.length := Nat.mul_pos (Nat.pos_of_ne_zero hb) this
  simp only [beBytesToNat_cons]
  omega

theorem beBytesToNat_cons_zero (t : List Nat) :
    beBytesToNat (0 :: t) = beBytesToNat t := by
  simp [beBytesToNat_cons]

theorem beBytesToNat_replicate_zero_append (k : Nat) (bs : List Nat) :
    beBytesToNat (List.replicate k 0 ++ bs) = beBytesToNat bs := by
  induction k with
  | zero => simp
  | succ m ih => simpa [List.replicate_succ, beBytesToNat_cons_zero] using ih

theorem natToBEBytesAux_fuel :
    ∀ (f1 f2 n : Nat), n ≤ f1 → n ≤ f2 →
      natToBEBytesAux f1 n = natToBEBytesAux f2 n := by
  intro f1
  induction f1 with
  | zero =>
      intro f2 n h1 h2
      have : n = 0 := by omega
      subst this
      cases f2 <;> simp [natToBEBytesAux]
  | succ k ih =>
      intro f2 n h1 h2
      by_cases h : n = 0
      · subst h
        cases f2 <;> simp [natToBEBytesAux]
      · have hf2 : ∃ k2, f2 = k2 + 1 := ⟨f2 - 1, by omega⟩
        obtain ⟨k2, rfl⟩ := hf2
        simp only [natToBEBytesAux, if_neg h]
        have hd : n / 256 ≤ k := by
          have := Nat.div_lt_self (Nat.pos_of_ne_zero h) (by omega : 1 < 256)
          omega
        have hd2 : n / 256 ≤ k2 := by
          have := Nat.div_lt_self (Nat.pos_of_ne_zero h) (by omega : 1 < 256)
          omega
        rw [ih k2 (n / 256) hd hd2]

theorem natToBEBytes_zero : natToBEBytes 0 = [] := rfl

theorem natToBEBytes_of_ne_zero (n : Nat) (h : n ≠ 0) :
    natToBEBytes n = natToBEBytes (n / 256) ++ [n % 256] := by
  obtain ⟨k, rfl⟩ : ∃ k, n = k + 1 := ⟨n - 1, by omega⟩
  show natToBEBytesAux (k + 1) (k + 1) = _
  simp only [natToBEBytesAux, if_neg h]
  have hd : (k + 1) / 256 ≤ k := by
    have := Nat.div_lt_self (by omega : 0 < k + 1) (by omega : 1 < 256)
    omega
  rw [natToBEBytesAux_fuel k ((k + 1) / 256) ((k + 1) / 256) hd (le_refl _)]
  rfl

theorem natToBEBytes_combine (a b : Nat) (hb : b < 256) (h : 256 * a + b ≠ 0) :
    natToBEBytes (256 * a + b) = natToBEBytes a ++ [b] := by
  rw [natToBEBytes_of_ne_zero _ h]
  have hdiv : (256 * a + b) / 256 = a := by
    rw [Nat.mul_add_div (by omega)]
    simp [Nat.div_eq_of_lt hb]
  have hmod : (256 * a + b) % 256 = b := by
    rw [Nat.mul_add_mod]
    exact Nat.mod_eq_of_lt hb
  rw [hdiv, hmod]

theorem beBytesToNat_natToBEBytes (n : Nat) :
    beBytesToNat (natToBEBytes n) = n := by
  induction n using Nat.strong_induction_on with
  | _ n ih =>
      by_cases h : n = 0
      · subst h; simp [natToBEBytes_zero, beBytesToNat_nil]
      · rw [natToBEBytes_of_ne_zero _ h, beBytesToNat_append_singleton,
          ih (n / 256) (Nat.div_lt_self (Nat.pos_of_ne_zero h) (by omega))]
        omega

theorem natToBEBytes_eq_nil_iff (n : Nat) : natToBEBytes n = [] ↔ n = 0 := by
  constructor
  · intro h
    have := beBytesToNat_natToBEBytes n
    rw [h, beBytesToNat_nil] at this
    omega
  · intro h; subst h; exact natToBEBytes_zero

theorem natToBEBytes_length_le (k : Nat) : ∀ n : Nat, n < 256 ^ k →
    (natToBEBytes n).length ≤ k := by
  induction k with
  | zero =>
      intro n hn
      have : n = 0 := by simpa using hn
      subst this; simp [natToBEBytes_zero]
  | succ m ih =>
      intro n hn
      by_cases h : n = 0
      · subst h; simp [natToBEBytes_zero]
      · rw [natToBEBytes_of_ne_zero _ h]
        have hlt : n / 256 < 256 ^ m := by
          rw [Nat.div_lt_iff_lt_mul (by omega : (0:Nat) < 256)]
          calc n < 256 ^ (m + 1) := hn
            _ = 256 ^ m * 256 := by rw [pow_succ]
        simpa using Nat.succ_le_succ (ih (n / 256) hlt)

theorem isBytes_natToBEBytes (n : Nat) : isBytes (natToBEBytes n) := by
  induction n using Nat.strong_induction_on with
  | _ n ih =>
      by_cases h : n = 0
      · subst h; simp [natToBEBytes_zero, isBytes]
      · rw [natToBEBytes_of_ne_zero _ h]
        intro b hb
        rcases List.mem_append.mp hb with hb1 | hb2
        · exact ih (n / 256) (Nat.div_lt_self (Nat.pos_of_ne_zero h) (by omega)) b hb1
        · have : b = n % 256 := by simpa using hb2
          subst this
          exact Nat.mod_lt _ (by omega)

theorem lt_of_natToBEBytes_length_le (n k : Nat)
    (h : (natToBEBytes n).length ≤ k) : n < 256 ^ k := by
  have h1 : beBytesToNat (natToBEBytes n) < 256 ^ (natToBEBytes n).length :=
    beBytesToNat_lt _ (isBytes_natToBEBytes n)
  rw [beBytesToNat_natToBEBytes] at h1
  calc n < 256 ^ (natToBEBytes n).length := h1
    _ ≤ 256 ^ k := Nat.pow_le_pow_right (by omega) h

theorem natToBEBytes_head_ne_zero (n : Nat) :
    ∀ b t, natToBEBytes n = b :: t → b ≠ 0 := by
  induction n using Nat.strong_induction_on with
  | _ n ih =>
      intro b t hbt
      by_cases h : n = 0
      · subst h; rw [natToBEBytes_zero] at hbt; cases hbt
      · rw [natToBEBytes_of_ne_zero _ h] at hbt
        rcases hq : natToBEBytes (n / 256) with _ | ⟨b0, t0⟩
        · rw [hq] at hbt
          simp only [List.nil_append, List.cons.injEq] at hbt
          have hq0 : n / 256 = 0 := (natToBEBytes_eq_nil_iff _).mp hq
          have hn256 : n < 256 := by
            rcases Nat.lt_or_ge n 256 with h1 | h1
            · exact h1
            · exfalso
              have : 1 ≤ n / 256 := Nat.one_le_div_iff (by omega) |>.mpr h1
              omega
          have : n % 256 = n := Nat.mod_eq_of_lt hn256
          omega
        · rw [hq] at hbt
          simp only [List.cons_append, List.cons.injEq] at hbt
          have := ih (n / 256) (Nat.div_lt_self (Nat.pos_of_ne_zero h) (by omega)) b0 t0 hq
          omega

theorem noLeadingZero_natToBEBytes (n : Nat) : noLeadingZero (natToBEBytes n) := by
  rcases h : natToBEBytes n with _ | ⟨b, t⟩
  · simp [noLeadingZero]
  · exact natToBEBytes_head_ne_zero n b t h

theorem natToBEBytes_beBytesToNat (bs : List Nat) (h1 : isBytes bs)
    (h2 : noLeadingZero bs) : natToBEBytes (beBytesToNat bs) = bs := by
  induction bs using List.reverseRecOn with
  | nil => simp [beBytesToNat_nil, natToBEBytes_zero]
  | append_singleton ys b ih =>
      rw [beBytesToNat_append_singleton]
      have hb : b < 256 := h1 b (by simp)
      rcases ys with _ | ⟨y0, t⟩
      · have hbne : b ≠ 0 := by simpa [noLeadingZero] using h2
        rw [beBytesToNat_nil]
        have : 256 * 0 + b ≠ 0 := by omega
        have hcomb := natToBEBytes_combine 0 b hb (by omega)
        simpa [natToBEBytes_zero] using hcomb
      · have hy0 : y0 ≠ 0 := by simpa [noLeadingZero] using h2
        have hpos : 0 < beBytesToNat (y0 :: t) := beBytesToNat_pos _ _ hy0
        have hne : 256 * beBytesToNat (y0 :: t) + b ≠ 0 := by positivity
        rw [natToBEBytes_combine _ _ hb hne]
        rw [ih (fun x hx => h1 x (List.mem_append_left _ hx))
          (by simpa [noLeadingZero] using hy0)]

theorem pad_natToBEBytes (bs : List Nat) (h : isBytes bs) :
    List.replicate (bs.length - (natToBEBytes (beBytesToNat bs)).length) 0 ++
      natToBEBytes (beBytesToNat bs) = bs := by
  induction bs with
  | nil => simp [beBytesToNat_nil, natToBEBytes_zero]
  | cons b t ih =>
      by_cases hb : b = 0
      · subst hb
        rw [beBytesToNat_cons_zero]
        have ht : isBytes t := fun x hx => h x (List.mem_cons_of_mem _ hx)
        have hlen : (natToBEBytes (beBytesToNat t)).length ≤ t.length :=
          natToBEBytes_length_le _ _ (beBytesToNat_lt t ht)
        have hsub : (0 :: t).length - (natToBEBytes (beBytesToNat t)).length =
            (t.length - (natToBEBytes (beBytesToNat t)).length) + 1 := by
          simp only [List.length_cons]
          omega
        rw [hsub, List.replicate_succ, List.cons_append, ih ht]
      · have hmin : natToBEBytes (beBytesToNat (b :: t)) = b :: t :=
          natToBEBytes_beBytesToNat _ h (by simpa [noLeadingZero] using hb)
        rw [hmin]
        simp

/-- Error type of the crate (`error::Unspecified`): a single opaque value. -/
inductive Unspecified where
  | unspecified
deriving DecidableEq, Repr

/-- Variants of `error::KeyRejected` reached by this layer.  The variant
`unexpectedError` also stands for the `From<()>` / `From<Unspecified>`
conversions performed by the `?` operator (the error module is an external
collaborator of the sources modelled here). -/
inductive KeyRejected where
  | wrongAlgorithm
  | inconsistentComponents
  | unexpectedError
  | unspecified
deriving DecidableEq, Repr

/-- Outcome of a Rust computation that may panic instead of returning. -/
inductive PanicOr (α : Type) where
  | panics
  | value (a : α)
deriving DecidableEq, Repr

/-- Modelled from the spec: DER length octets (missing native code:
`aws_lc` CBS/CBB length handling used by `ECDSA_SIG_from_bytes` and
`ECDSA_SIG_to_bytes`).  Short form below 128, minimal long form above. -/
def encLen (L : Nat) : List Nat :=
  if L < 128 then [L]
  else if L < 256 then [0x81, L]
  else [0x82, L / 256, L % 256]

/-- Modelled from the spec: parsing of DER length octets, rejecting
non-minimal forms (the native CBS parser enforces DER minimality). -/
def parseLen : List Nat → Option (Nat × List Nat)
  | [] => none
  | b :: rest =>
    if b < 128 then some (b, rest)
    else if b = 0x81 then
      match rest with
      | [] => none
      | l :: r2 => if 128 ≤ l then some (l, r2) else none
    else if b = 0x82 then
      match rest with
      | h :: l :: r2 => if 256 ≤ h * 256 + l then some (h * 256 + l, r2) else none
      | _ => none
    else none

/-- Modelled from the spec: validity of the content octets of a DER INTEGER
holding an ECDSA signature component — minimal encoding, non-negative, and a
zero component is a rejection ("parse failure (malformed DER, negative/zero
component) is a rejection"). -/
def intContentOK : List Nat → Bool
  | [] => false
  | b :: rest =>
    if 128 ≤ b then false
    else if b = 0 then
      match rest with
      | [] => false
      | b2 :: _ => 128 ≤ b2
    else true

/-- Modelled from the spec: content octets of the minimal DER INTEGER for an
unsigned value (a leading zero octet marks a high bit). -/
def derIntContent (v : Nat) : List Nat :=
  match natToBEBytes v with
  | [] => [0]
  | b :: t => if 128 ≤ b then 0 :: b :: t else b :: t

/-- Modelled from the spec: full DER INTEGER (tag `0x02`). -/
def derInt (v : Nat) : List Nat :=
  2 :: (encLen (derIntContent v).length ++ derIntContent v)

/-- Modelled from the spec: the native `ECDSA_SIG_to_bytes` serializer —
`SEQUENCE { INTEGER r, INTEGER s }` in minimal DER. -/
def ECDSA_SIG_to_bytes (r s : Nat) : List Nat :=
  0x30 :: (encLen (derInt r ++ derInt s).length ++ (derInt r ++ derInt s))

/-- Modelled from the spec: parse one DER INTEGER from the front of a byte
string, rejecting malformed, non-minimal, negative or zero components. -/
def parseDERInt (bs : List Nat) : Option (Nat × List Nat) :=
  match bs with
  | [] => none
  | tag :: rest =>
    if tag = 2 then
      match parseLen rest with
      | none => none
      | some (L, r2) =>
        if L ≤ r2.length then
          if intContentOK (r2.take L) then
            some (beBytesToNat (r2.take L), r2.drop L)
          else none
        else none
    else none

/-- Modelled from the spec: the native `ECDSA_SIG_from_bytes` parser — reads
a minimally encoded `SEQUENCE { INTEGER r, INTEGER s }`, requires the whole
input to be consumed, and yields the two unsigned components. -/
def ECDSA_SIG_from_bytes (sig : List Nat) : Option (Nat × Nat) :=
  match sig with
  | [] => none
  | tag :: rest =>
    if tag = 0x30 then
      match parseLen rest with
      | none => none
      | some (L, r2) =>
        if L = r2.length then
          match parseDERInt r2 with
          | none => none
          | some (r, r3) =>
            match parseDERInt r3 with
            | none => none
            | some (s, r4) => if r4 = [] then some (r, s) else none
        else none
    else none

/-- The four ECDSA curve identifiers of `ec::AlgorithmID`. -/
inductive AlgorithmID where
  | ECDSA_P256
  | ECDSA_P384
  | ECDSA_P521
  | ECDSA_P256K1
deriving DecidableEq, Repr

/-- The native curve NID of each algorithm (`AlgorithmID::nid`):
`NID_X9_62_prime256v1`, `NID_secp384r1`, `NID_secp521r1`, `NID_secp256k1`. -/
def AlgorithmID.nid : AlgorithmID → Int
  | .ECDSA_P256 => 415
  | .ECDSA_P384 => 715
  | .ECDSA_P521 => 716
  | .ECDSA_P256K1 => 714

/-- Fixed field-element byte width per curve (`ecdsa_fixed_number_byte_size`). -/
def ecdsa_fixed_number_byte_size : AlgorithmID → Nat
  | .ECDSA_P256 | .ECDSA_P256K1 => 32
  | .ECDSA_P384 => 48
  | .ECDSA_P521 => 66

/-- Model of `slice[start..stop].copy_from_slice(src)` on a byte buffer:
`none` is the panic of an invalid range or of mismatched lengths. -/
def writeSlice (buf : List Nat) (start stop : Nat) (src : List Nat) :
    Option (List Nat) :=
  if start ≤ stop ∧ stop ≤ buf.length ∧ src.length = stop - start then
    some (buf.take start ++ src ++ buf.drop stop)
  else none

/-- Model of `ec::ecdsa_asn1_to_fixed`: parse the DER signature, then write
the minimal big-endian bytes of `r` and `s` right-aligned into a
zero-initialized buffer of twice the curve's fixed width (the `Signature`
buffer is zeroed before the closure writes into it).  Nat subtraction stands
for the `usize` subtraction producing the start indices; when a component is
wider than the fixed width the resulting `copy_from_slice` panics, as the
Rust code does. -/
def ecdsa_asn1_to_fixed (alg : AlgorithmID) (sig : List Nat) :
    PanicOr (Except Unspecified (List Nat)) :=
  let n := ecdsa_fixed_number_byte_size alg
  match ECDSA_SIG_from_bytes sig with
  | none => .value (.error .unspecified)
  | some (r, s) =>
    let rBuf := natToBEBytes r
    let sBuf := natToBEBytes s
    match writeSlice (List.replicate (2 * n) 0) (n - rBuf.length) n rBuf with
    | none => .panics
    | some buf1 =>
      match writeSlice buf1 (2 * n - sBuf.length) (2 * n) sBuf with
      | none => .panics
      | some buf2 => .value (.ok buf2)

/-- Model of `ec::ecdsa_sig_from_fixed`: reject any input whose length is not
twice the curve's fixed width, otherwise split at the midpoint and read each
half as a big-endian unsigned integer (`BN_bin2bn` via
`DetachableLcPtr::try_from`, assembled with `ECDSA_SIG_set0`). -/
def ecdsa_sig_from_fixed (alg : AlgorithmID) (signature : List Nat) :
    Except Unit (Nat × Nat) :=
  let n := ecdsa_fixed_number_byte_size alg
  if signature.length ≠ 2 * n then .error ()
  else .ok (beBytesToNat (signature.take n), beBytesToNat (signature.drop n))

/-- An EC group (`EC_GROUP`): carries its curve NID
(`EC_GROUP_get_curve_name`). -/
structure ECGroup where
  nid : Int
deriving DecidableEq, Repr

/-- An EC point (`EC_POINT`), identified abstractly by the octet string it
was decoded from. -/
structure ECPoint where
  octets : List Nat
deriving DecidableEq, Repr

/-- An `EC_KEY`: group, optional public point, optional private scalar, plus
the abstract verdict of the native consistency check `EC_KEY_check_key`
(`EC_KEY_check_fips` under the fips feature), which depends on curve
arithmetic external to this layer. -/
structure EC_KEY where
  group : Option ECGroup
  pubKey : Option ECPoint
  privKey : Option Nat
  checkOk : Bool
deriving DecidableEq, Repr

/-- An `EVP_PKEY` holding an EC key (`EVP_PKEY_get0_EC_KEY` is `none` when
the pkey does not hold one). -/
structure EVP_PKEY where
  ecKey : Option EC_KEY
deriving DecidableEq, Repr

/-- Model of `ec::validate_evp_key`: fetch the EC key and its group (null
yields the construction-failure rejection), compare the embedded curve NID
with the expected one (`WrongAlgorithm` on mismatch), then run the native
consistency check (`InconsistentComponents` on failure). -/
def validate_evp_key (evp_pkey : EVP_PKEY) (expected_curve_nid : Int) :
    Except KeyRejected Unit :=
  match evp_pkey.ecKey with
  | none => .error .unexpectedError
  | some ec_key =>
    match ec_key.group with
    | none => .error .unexpectedError
    | some ec_group =>
      if ec_group.nid ≠ expected_curve_nid then .error .wrongAlgorithm
      else if ec_key.checkOk = false then .error .inconsistentComponents
      else .ok ()

/-- Success or failure of each fallible native call made while constructing
an EC key, plus the oracle deciding the native consistency check on the
assembled components (point on curve; public = private·G when a private
scalar is present). -/
structure NativeEnv where
  ecKeyNewOk : Bool
  setGroupOk : Bool
  setPublicOk : Bool
  setPrivateOk : Bool
  pkeyNewOk : Bool
  assignOk : Bool
  check : Option ECGroup → Option ECPoint → Option Nat → Bool

/-- Model of `ec::evp_pkey_from_public_point`: assemble an `EC_KEY` from the
group and the public point, wrap it in an `EVP_PKEY`, and validate against
the group's own NID before returning; validation failure is converted to
`Unspecified` by the `?` operator. -/
def evp_pkey_from_public_point (env : NativeEnv) (ec_group : ECGroup)
    (public_ec_point : ECPoint) : Except Unspecified EVP_PKEY :=
  let nid := ec_group.nid
  if env.ecKeyNewOk = false then .error .unspecified
  else if env.setGroupOk = false then .error .unspecified
  else if env.setPublicOk = false then .error .unspecified
  else if env.pkeyNewOk = false then .error .unspecified
  else if env.assignOk = false then .error .unspecified
  else
    let ec_key : EC_KEY :=
      { group := some ec_group, pubKey := some public_ec_point,
        privKey := none,
        checkOk := env.check (some ec_group) (some public_ec_point) none }
    let pkey : EVP_PKEY := { ecKey := some ec_key }
    match validate_evp_key pkey nid with
    | .error _ => .error .unspecified
    | .ok _ => .ok pkey

/-- Model of `ec::evp_key_from_public_private`: assemble an `EC_KEY` from
group, public point and private scalar, wrap it, and validate against the
group's NID before returning; native call failures are
`KeyRejected::unexpected_error`. -/
def evp_key_from_public_private (env : NativeEnv) (ec_group : ECGroup)
    (public_ec_point : ECPoint) (private_bignum : Nat) :
    Except KeyRejected EVP_PKEY :=
  if env.ecKeyNewOk = false then .error .unexpectedError
  else if env.setGroupOk = false then .error .unexpectedError
  else if env.setPublicOk = false then .error .unexpectedError
  else if env.setPrivateOk = false then .error .unexpectedError
  else if env.pkeyNewOk = false then .error .unexpectedError
  else if env.assignOk = false then .error .unexpectedError
  else
    let ec_key : EC_KEY :=
      { group := some ec_group, pubKey := some public_ec_point,
        privKey := some private_bignum,
        checkOk := env.check (some ec_group) (some public_ec_point)
          (some private_bignum) }
    let evp_pkey : EVP_PKEY := { ecKey := some ec_key }
    match validate_evp_key evp_pkey ec_group.nid with
    | .error e => .error e
    | .ok _ => .ok evp_pkey

/-- Environment of `ec::ec_point_from_bytes`: whether `EC_POINT_new`
succeeds, and the abstract verdict of `EC_POINT_oct2point` (valid octet
encoding of a point on the given group). -/
structure PointEnv where
  pointNewOk : Bool
  oct2pointOk : ECGroup → List Nat → Bool

/-- Model of `ec::ec_point_from_bytes`: allocate a point (failure yields
`Unspecified` through the `?` operator), decode the octet string into it
(failure of the native decode also yields `Err(Unspecified)`). -/
def ec_point_from_bytes (env : PointEnv) (ec_group : ECGroup)
    (bytes : List Nat) : Except Unspecified ECPoint :=
  if env.pointNewOk = false then .error .unspecified
  else if env.oct2pointOk ec_group bytes = false then .error .unspecified
  else .ok { octets := bytes }

/-- The key id `EVP_PKEY_RSA`. -/
def EVP_PKEY_RSA : Nat := 6

/-- The key id `EVP_PKEY_RSA_PSS`. -/
def EVP_PKEY_RSA_PSS : Nat := 912

/-- An `EVP_PKEY` as seen by the RSA module: its key id and the bit size of
its modulus (`key_size_bits`). -/
structure RsaEvpPkey where
  id : Nat
  keySizeBits : Nat
deriving DecidableEq, Repr

/-- Model of `rsa::key::is_rsa_key`: the id is RSA or RSA-PSS. -/
def is_rsa_key (key : RsaEvpPkey) : Bool :=
  key.id = EVP_PKEY_RSA || key.id = EVP_PKEY_RSA_PSS

/-- Model of `rsa::key::KeyPair::validate_private_key`: reject non-RSA keys,
accept a modulus bit size in `2048..=8192`, reject anything else with
`KeyRejected::unspecified`. -/
def validate_private_key (key : RsaEvpPkey) : Except KeyRejected Unit :=
  if is_rsa_key key = false then .error .unspecified
  else if 2048 ≤ key.keySizeBits ∧ key.keySizeBits ≤ 8192 then .ok ()
  else .error .unspecified

/-- An RSA `KeyPair`: the validated key plus its serialized public key,
computed once at construction. -/
structure RsaKeyPair where
  evp_pkey : RsaEvpPkey
  serialized_public_key : List Nat
deriving DecidableEq, Repr

/-- Environment of the RSA key-pair constructors: the public-key DER encoder
(`PublicKey::new` via `encode_public_key_der`, an external collaborator),
`none` standing for its failure. -/
structure RsaEnv where
  encodePublicKeyDer : RsaEvpPkey → Option (List Nat)

/-- Model of `rsa::key::KeyPair::new`: validate the private key, then derive
and store the serialized public key; a failing encoder is converted to a
`KeyRejected` by the `?` operator. -/
def RsaKeyPair.new (env : RsaEnv) (evp_pkey : RsaEvpPkey) :
    Except KeyRejected RsaKeyPair :=
  match validate_private_key evp_pkey with
  | .error e => .error e
  | .ok _ =>
    match env.encodePublicKeyDer evp_pkey with
    | none => .error .unexpectedError
    | some pub => .ok { evp_pkey := evp_pkey, serialized_public_key := pub }

/-- Model of `rsa::key::KeyPair::from_pkcs8`: `parsed` is the outcome of the
external PKCS#8 parser `parse_rfc5208_private_key`; its result is passed to
`KeyPair::new`. -/
def RsaKeyPair.from_pkcs8 (env : RsaEnv)
    (parsed : Except KeyRejected RsaEvpPkey) : Except KeyRejected RsaKeyPair :=
  match parsed with
  | .error e => .error e
  | .ok key => RsaKeyPair.new env key

/-- Model of `rsa::key::KeyPair::from_der`: `parsed` is the outcome of the
external RFC 8017 decoder `decode_private_key_der`. -/
def RsaKeyPair.from_der (env : RsaEnv)
    (parsed : Except KeyRejected RsaEvpPkey) : Except KeyRejected RsaKeyPair :=
  match parsed with
  | .error e => .error e
  | .ok key => RsaKeyPair.new env key

/-- Model of `rsa::key::KeyPair::generate`: `generated` is the outcome of
the external `generate_rsa_key`; `Self::new(..)?` converts a `KeyRejected`
into `Unspecified`. -/
def RsaKeyPair.generate (env : RsaEnv)
    (generated : Except Unspecified RsaEvpPkey) :
    Except Unspecified RsaKeyPair :=
  match generated with
  | .error e => .error e
  | .ok key =>
    match RsaKeyPair.new env key with
    | .error _ => .error .unspecified
    | .ok kp => .ok kp

/-- Model of `rsa::key::KeyPair::sign`: `nativeSign` is the outcome of the
external `evp_pkey.sign` (on success an RSA signature of exactly the modulus
length); the resulting bytes are copied into the caller's buffer with
`copy_from_slice`, which panics when the buffer length differs. -/
def rsa_keypair_sign (nativeSign : Except Unspecified (List Nat))
    (signatureLen : Nat) : PanicOr (Except Unspecified (List Nat)) :=
  match nativeSign with
  | .error e => .value (.error e)
  | .ok sig_bytes =>
    if signatureLen = sig_bytes.length then .value (.ok sig_bytes)
    else .panics

/-- The nonce length in bytes (`aead::NONCE_LEN`). -/
def NONCE_LEN : Nat := 12

/-- Big-endian bytes of a `u64` value (`u64::to_be_bytes`). -/
def u64ToBEBytes (v : Nat) : List Nat :=
  List.ofFn fun i : Fin 8 => v / 256 ^ (7 - i.val) % 256

/-- Model of `aead::nonce_sequence::PredictableNonceSequence`: a 64-bit
counter. -/
structure PredictableNonceSequence where
  position : Nat
deriving DecidableEq, Repr

/-- Model of `PredictableNonceSequence::advance`: wrapping-increment the
counter, then emit 4 zero bytes followed by the big-endian counter. -/
def PredictableNonceSequence.advance (s : PredictableNonceSequence) :
    PredictableNonceSequence × Except Unspecified (List Nat) :=
  let newPos := (s.position + 1) % 2 ^ 64
  (⟨newPos⟩, .ok (List.replicate 4 0 ++ u64ToBEBytes newPos))

/-- A 16-byte cipher block (`aead::block::Block`). -/
structure Block where
  bytes : List Nat
  len16 : bytes.length = 16

/-- An AES-128 cipher key (`cipher::SymmetricCipherKey` in its `Aes128`
variant), identified by its key material. -/
structure SymmetricCipherKey where
  keyBytes : List Nat
deriving DecidableEq, Repr

/-- Modelled from the spec: `SymmetricCipherKey::aes128` (the cipher module
is an external collaborator of the sources here) accepts exactly 128-bit
(16-byte) key material and fails otherwise. -/
def SymmetricCipherKey.aes128 (key_bytes : List Nat) :
    Except Unspecified SymmetricCipherKey :=
  if key_bytes.length = 16 then .ok { keyBytes := key_bytes }
  else .error .unspecified

/-- Model of `aead::nonce_sequence::NonceSequenceKey`: 16 bytes of key
material. -/
structure NonceSequenceKey where
  bytes : List Nat
  len16 : bytes.length = 16

/-- Model of `aead::nonce_sequence::UnpredictableNonceSequence`: immutable
AES-128 key plus a 64-bit counter. -/
structure UnpredictableNonceSequence where
  aes_key : SymmetricCipherKey
  position : Nat
deriving DecidableEq, Repr

/-- Model of `UnpredictableNonceSequence::using_key_and_position`: build the
AES key from the 16 key bytes, with `.unwrap()` panicking on failure. -/
def using_key_and_position (key : NonceSequenceKey) (position : Nat) :
    PanicOr UnpredictableNonceSequence :=
  match SymmetricCipherKey.aes128 key.bytes with
  | .error _ => .panics
  | .ok k => .value { aes_key := k, position := position }

/-- Model of `UnpredictableNonceSequence::advance`: wrapping-increment the
counter, place its big-endian bytes at offset 4 of a zeroed 16-byte block,
encrypt the block once (`encrypt_block` abstracted as the function `aesEnc`,
since the cipher lives outside these sources), and keep the first 12
ciphertext bytes. -/
def UnpredictableNonceSequence.advance
    (aesEnc : SymmetricCipherKey → Block → Except Unspecified Block)
    (s : UnpredictableNonceSequence) :
    UnpredictableNonceSequence × Except Unspecified (List Nat) :=
  let newPos := (s.position + 1) % 2 ^ 64
  let block : Block :=
    ⟨List.replicate 4 0 ++ u64ToBEBytes newPos ++ List.replicate 4 0,
      by simp [u64ToBEBytes]⟩
  match aesEnc s.aes_key block with
  | .error e => (⟨s.aes_key, newPos⟩, .error e)
  | .ok encrypted => (⟨s.aes_key, newPos⟩, .ok (encrypted.bytes.take NONCE_LEN))

/-- The nonce emitted by the n-th `advance` call (counting from 1) of an
unpredictable nonce sequence. -/
def UnpredictableNonceSequence.nthNonce
    (aesEnc : SymmetricCipherKey → Block → Except Unspecified Block)
    (s : UnpredictableNonceSequence) : Nat → Except Unspecified (List Nat)
  | 0 => (s.advance aesEnc).2
  | n + 1 => UnpredictableNonceSequence.nthNonce aesEnc (s.advance aesEnc).1 n

theorem isBytes_mono {l l2 : List Nat} (hsub : l ⊆ l2) (h : isBytes l2) :
    isBytes l := fun b hb => h b (hsub hb)

theorem parseLen_encLen (L : Nat) (rest : List Nat) (_hbound : L < 65536) :
    parseLen (encLen L ++ rest) = some (L, rest) := by
  by_cases h1 : L < 128
  · simp [encLen, parseLen, h1]
  · by_cases h2 : L < 256
    · have h128 : 128 ≤ L := Nat.not_lt.mp h1
      simp [encLen, parseLen, h1, h2, h128]
    · have h256 : 256 ≤ L := Nat.not_lt.mp h2
      have hdm : L / 256 * 256 + L % 256 = L := Nat.div_add_mod' L 256
      simp only [encLen, if_neg h1, if_neg h2, List.cons_append, List.nil_append]
      simp [parseLen, hdm, h256]

theorem parseLen_inv (bs : List Nat) (L : Nat) (rest : List Nat)
    (hb : isBytes bs) (h : parseLen bs = some (L, rest)) :
    bs = encLen L ++ rest ∧ L < 65536 := by
  rcases bs with _ | ⟨b, r⟩
  · simp [parseLen] at h
  · by_cases h1 : b < 128
    · simp only [parseLen, if_pos h1, Option.some.injEq, Prod.mk.injEq] at h
      obtain ⟨hL, hr⟩ := h
      subst hL; subst hr
      exact ⟨by simp [encLen, h1], by omega⟩
    · by_cases h2 : b = 0x81
      · subst h2
        rcases r with _ | ⟨l, r2⟩
        · simp [parseLen] at h
        · by_cases h3 : 128 ≤ l
          · simp [parseLen, h3] at h
            obtain ⟨hL, hr⟩ := h
            have hl256 : l < 256 := hb l (by simp)
            subst hL; subst hr
            refine ⟨?_, by omega⟩
            simp [encLen, Nat.not_lt.mpr h3, hl256]
          · simp [parseLen, h1, h3] at h
      · by_cases h4 : b = 0x82
        · subst h4
          rcases r with _ | ⟨hi, r1⟩
          · simp [parseLen, h1] at h
          rcases r1 with _ | ⟨lo, r2⟩
          · simp [parseLen, h1] at h
          by_cases h5 : 256 ≤ hi * 256 + lo
          · simp [parseLen, h5] at h
            obtain ⟨hL, hr⟩ := h
            subst hL; subst hr
            have hhi : hi < 256 := hb hi (by simp)
            have hlo : lo < 256 := hb lo (by simp)
            have hdiv : (hi * 256 + lo) / 256 = hi := by
              rw [Nat.mul_comm hi 256, Nat.mul_add_div (by omega)]
              simp [Nat.div_eq_of_lt hlo]
            have hmod : (hi * 256 + lo) % 256 = lo := by
              rw [Nat.mul_comm hi 256, Nat.mul_add_mod]
              exact Nat.mod_eq_of_lt hlo
            refine ⟨?_, by omega⟩
            have hge : ¬ hi * 256 + lo < 128 := by omega
            have hge2 : ¬ hi * 256 + lo < 256 := by omega
            simp [encLen, hge, hge2, hdiv, hmod]
          · simp [parseLen, h1, h5] at h
        · simp [parseLen, h1, h2, h4] at h

theorem derIntContent_spec (v : Nat) (hv : v ≠ 0) :
    intContentOK (derIntContent v) = true ∧
    beBytesToNat (derIntContent v) = v ∧
    isBytes (derIntContent v) := by
  rcases hq : natToBEBytes v with _ | ⟨b, t⟩
  · exact absurd ((natToBEBytes_eq_nil_iff v).mp hq) hv
  · have hbne : b ≠ 0 := natToBEBytes_head_ne_zero v b t hq
    have hbts : isBytes (b :: t) := hq ▸ isBytes_natToBEBytes v
    have hb256 : b < 256 := hbts b (List.mem_cons_self _ _)
    have hval : beBytesToNat (b :: t) = v := by
      rw [← hq, beBytesToNat_natToBEBytes]
    by_cases hb : 128 ≤ b
    · have hd : derIntContent v = 0 :: b :: t := by
        simp [derIntContent, hq, hb]
      rw [hd]
      refine ⟨?_, ?_, ?_⟩
      · simp [intContentOK, hb]
      · simpa [beBytesToNat_cons_zero] using hval
      · intro x hx
        rcases List.mem_cons.mp hx with h | h
        · omega
        · exact hbts x h
    · have hd : derIntContent v = b :: t := by
        simp [derIntContent, hq, hb]
      rw [hd]
      refine ⟨?_, ?_, ?_⟩
      · simp [intContentOK, hb, hbne]
      · exact hval
      · exact hbts

theorem derIntContent_length_le (v k : Nat) (h : v < 256 ^ k) :
    (derIntContent v).length ≤ k + 1 := by
  have hlen := natToBEBytes_length_le k v h
  unfold derIntContent
  rcases hq : natToBEBytes v with _ | ⟨b, t⟩
  · simp
  · rw [hq] at hlen
    simp only [List.length_cons] at hlen
    by_cases hb : 128 ≤ b <;> simp [hb] <;> omega

theorem derIntContent_inv (c : List Nat) (hb : isBytes c)
    (hok : intContentOK c = true) :
    derIntContent (beBytesToNat c) = c ∧ 1 ≤ beBytesToNat c := by
  rcases c with _ | ⟨b, rest⟩
  · simp [intContentOK] at hok
  · by_cases h1 : 128 ≤ b
    · simp [intContentOK, h1] at hok
    · by_cases h2 : b = 0
      · subst h2
        rcases rest with _ | ⟨b2, r2⟩
        · simp [intContentOK] at hok
        · have hb2 : 128 ≤ b2 := by
            simpa [intContentOK, h1] using hok
          have hb2ne : b2 ≠ 0 := by omega
          have htail : isBytes (b2 :: r2) :=
            fun x hx => hb x (List.mem_cons_of_mem _ hx)
          have hmin : natToBEBytes (beBytesToNat (b2 :: r2)) = b2 :: r2 :=
            natToBEBytes_beBytesToNat _ htail (by simpa [noLeadingZero] using hb2ne)
          constructor
          · rw [beBytesToNat_cons_zero]
            unfold derIntContent
            rw [hmin]
            simp [hb2]
          · rw [beBytesToNat_cons_zero]
            exact beBytesToNat_pos _ _ hb2ne
      · have hmin : natToBEBytes (beBytesToNat (b :: rest)) = b :: rest :=
          natToBEBytes_beBytesToNat _ hb (by simpa [noLeadingZero] using h2)
        constructor
        · unfold derIntContent
          rw [hmin]
          simp [h1]
        · exact beBytesToNat_pos _ _ h2

theorem parseDERInt_derInt (v : Nat) (rest : List Nat) (hv : v ≠ 0)
    (hlen : (derIntContent v).length < 65536) :
    parseDERInt (derInt v ++ rest) = some (v, rest) := by
  obtain ⟨hok, hval, _⟩ := derIntContent_spec v hv
  have hshape : derInt v ++ rest =
      2 :: (encLen (derIntContent v).length ++ (derIntContent v ++ rest)) := by
    simp [derInt]
  have hp := parseLen_encLen (derIntContent v).length (derIntContent v ++ rest) hlen
  have hle : (derIntContent v).length ≤ (derIntContent v ++ rest).length := by
    simp
  rw [hshape]
  simp [parseDERInt, hp, hle, List.take_left, List.drop_left, hok, hval]

theorem parseDERInt_inv (bs : List Nat) (v : Nat) (rest : List Nat)
    (hb : isBytes bs) (h : parseDERInt bs = some (v, rest)) :
    derInt v ++ rest = bs ∧ 1 ≤ v ∧ (derIntContent v).length < 65536 := by
  rcases bs with _ | ⟨tag, r1⟩
  · simp [parseDERInt] at h
  by_cases htag : tag = 2
  · subst htag
    simp only [parseDERInt, if_pos rfl] at h
    rcases hp : parseLen r1 with _ | ⟨L, r2⟩
    · rw [hp] at h; simp at h
    · rw [hp] at h
      simp only at h
      by_cases hL : L ≤ r2.length
      · by_cases hokc : intContentOK (r2.take L) = true
        · simp only [hL, hokc, eq_self_iff_true, if_true,
            Option.some.injEq, Prod.mk.injEq] at h
          obtain ⟨hvv, hrr⟩ := h
          have hbr1 : isBytes r1 := fun x hx => hb x (List.mem_cons_of_mem _ hx)
          obtain ⟨hr1eq, hL65⟩ := parseLen_inv r1 L r2 hbr1 hp
          have hbr2 : isBytes r2 := by
            apply isBytes_mono _ hbr1
            rw [hr1eq]
            exact fun x hx => List.mem_append_right _ hx
          have hbtake : isBytes (r2.take L) :=
            isBytes_mono (List.take_subset _ _) hbr2
          obtain ⟨hcontent, hpos⟩ := derIntContent_inv _ hbtake hokc
          rw [hvv] at hcontent hpos
          have hlenL : (r2.take L).length = L := by
            rw [List.length_take]
            omega
          refine ⟨?_, hpos, ?_⟩
          · rw [← hrr]
            unfold derInt
            rw [hcontent, hlenL]
            simp [hr1eq, List.append_assoc, List.take_append_drop]
          · rw [hcontent, hlenL]
            exact hL65
        · simp [hL, hokc] at h
      · simp [hL] at h
  · simp [parseDERInt, htag] at h

theorem ECDSA_SIG_parse_marshal (r s : Nat) (hr : r ≠ 0) (hs : s ≠ 0)
    (hrlen : (derIntContent r).length < 32000)
    (hslen : (derIntContent s).length < 32000) :
    ECDSA_SIG_from_bytes (ECDSA_SIG_to_bytes r s) = some (r, s) := by
  have hbody : (derInt r ++ derInt s).length < 65536 := by
    simp only [List.length_append, derInt, List.length_cons]
    have h1 : (encLen (derIntContent r).length).length ≤ 3 := by
      unfold encLen
      split_ifs <;> simp
    have h2 : (encLen (derIntContent s).length).length ≤ 3 := by
      unfold encLen
      split_ifs <;> simp
    omega
  have hp := parseLen_encLen (derInt r ++ derInt s).length (derInt r ++ derInt s)
    hbody
  have hint1 : parseDERInt (derInt r ++ derInt s) = some (r, derInt s) :=
    parseDERInt_derInt r (derInt s) hr (by omega)
  have hint2 : parseDERInt (derInt s) = some (s, []) := by
    have h0 := parseDERInt_derInt s [] hs (by omega)
    simpa using h0
  set c := derInt r ++ derInt s with hc
  simp [ECDSA_SIG_to_bytes, ECDSA_SIG_from_bytes, ← hc, hp, hint1, hint2]

theorem ECDSA_SIG_marshal_parse (der : List Nat) (r s : Nat)
    (hb : isBytes der) (h : ECDSA_SIG_from_bytes der = some (r, s)) :
    ECDSA_SIG_to_bytes r s = der ∧ 1 ≤ r ∧ 1 ≤ s := by
  rcases der with _ | ⟨tag, r1⟩
  · simp [ECDSA_SIG_from_bytes] at h
  by_cases htag : tag = 0x30
  · subst htag
    simp only [ECDSA_SIG_from_bytes, if_pos rfl] at h
    rcases hp : parseLen r1 with _ | ⟨L, r2⟩
    · rw [hp] at h; simp at h
    rw [hp] at h
    dsimp only at h
    by_cases hL : L = r2.length
    · rw [if_pos hL] at h
      rcases hint1 : parseDERInt r2 with _ | ⟨rv, r3⟩
      · rw [hint1] at h; simp at h
      rw [hint1] at h
      dsimp only at h
      rcases hint2 : parseDERInt r3 with _ | ⟨sv, r4⟩
      · rw [hint2] at h; simp at h
      rw [hint2] at h
      dsimp only at h
      by_cases hr4 : r4 = []
      · simp only [hr4, eq_self_iff_true, if_true,
          Option.some.injEq, Prod.mk.injEq] at h
        obtain ⟨hrv, hsv⟩ := h
        have hbr1 : isBytes r1 := fun x hx => hb x (List.mem_cons_of_mem _ hx)
        obtain ⟨hr1eq, _⟩ := parseLen_inv r1 L r2 hbr1 hp
        have hbr2 : isBytes r2 := by
          apply isBytes_mono _ hbr1
          rw [hr1eq]
          exact fun x hx => List.mem_append_right _ hx
        obtain ⟨hre, hrpos, _⟩ := parseDERInt_inv r2 rv r3 hbr2 hint1
        have hbr3 : isBytes r3 := by
          apply isBytes_mono _ hbr2
          rw [← hre]
          exact fun x hx => List.mem_append_right _ hx
        obtain ⟨hse, hspos, _⟩ := parseDERInt_inv r3 sv r4 hbr3 hint2
        subst hr4
        have hbody : derInt rv ++ derInt sv = r2 := by
          rw [← hre, ← hse]
          simp
        rw [← hrv, ← hsv]
        refine ⟨?_, hrpos, hspos⟩
        simp only [ECDSA_SIG_to_bytes]
        rw [hbody, ← hL, hr1eq]
      · simp [hr4] at h
    · simp [hL] at h
  · simp [ECDSA_SIG_from_bytes, htag] at h

theorem take_left_of_length {α : Type} (l1 l2 : List α) (k : Nat)
    (h : l1.length = k) : (l1 ++ l2).take k = l1 := by
  subst h
  exact List.take_left _ _

theorem drop_left_of_length {α : Type} (l1 l2 : List α) (k : Nat)
    (h : l1.length = k) : (l1 ++ l2).drop k = l2 := by
  subst h
  exact List.drop_left _ _

theorem ecdsa_asn1_to_fixed_eq (alg : AlgorithmID) (der : List Nat) (r s : Nat)
    (h : ECDSA_SIG_from_bytes der = some (r, s))
    (hr : (natToBEBytes r).length ≤ ecdsa_fixed_number_byte_size alg)
    (hs : (natToBEBytes s).length ≤ ecdsa_fixed_number_byte_size alg) :
    ecdsa_asn1_to_fixed alg der = .value (.ok
      (List.replicate (ecdsa_fixed_number_byte_size alg -
          (natToBEBytes r).length) 0 ++ natToBEBytes r ++
        (List.replicate (ecdsa_fixed_number_byte_size alg -
          (natToBEBytes s).length) 0 ++ natToBEBytes s))) := by
  set n := ecdsa_fixed_number_byte_size alg with hn
  set rBuf := natToBEBytes r with hrB
  set sBuf := natToBEBytes s with hsB
  have hw1 : writeSlice (List.replicate (2 * n) 0) (n - rBuf.length) n rBuf =
      some (List.replicate (n - rBuf.length) 0 ++ rBuf ++ List.replicate n 0) := by
    unfold writeSlice
    have hc : n - rBuf.length ≤ n ∧ n ≤ (List.replicate (2 * n) (0:Nat)).length ∧
        rBuf.length = n - (n - rBuf.length) := by
      refine ⟨by omega, by simp; omega, by omega⟩
    rw [if_pos hc, List.take_replicate, List.drop_replicate]
    have e1 : min (n - rBuf.length) (2 * n) = n - rBuf.length := by omega
    have e2 : 2 * n - n = n := by omega
    rw [e1, e2]
  have hlen1 : (List.replicate (n - rBuf.length) 0 ++ rBuf ++
      List.replicate n 0).length = 2 * n := by
    simp
    omega
  have hw2 : writeSlice (List.replicate (n - rBuf.length) 0 ++ rBuf ++
        List.replicate n 0) (2 * n - sBuf.length) (2 * n) sBuf =
      some (List.replicate (n - rBuf.length) 0 ++ rBuf ++
        (List.replicate (n - sBuf.length) 0 ++ sBuf)) := by
    unfold writeSlice
    have hc : 2 * n - sBuf.length ≤ 2 * n ∧
        2 * n ≤ (List.replicate (n - rBuf.length) 0 ++ rBuf ++
          List.replicate n 0).length ∧
        sBuf.length = 2 * n - (2 * n - sBuf.length) := by
      refine ⟨by omega, by rw [hlen1], by omega⟩
    rw [if_pos hc]
    have hpre : (List.replicate (n - rBuf.length) 0 ++ rBuf).length = n := by
      simp
      omega
    have hcut : 2 * n - sBuf.length =
        (List.replicate (n - rBuf.length) 0 ++ rBuf).length + (n - sBuf.length) := by
      rw [hpre]
      omega
    have hdropnil : (List.replicate (n - rBuf.length) 0 ++ rBuf ++
        List.replicate n 0).drop (2 * n) = [] := by
      apply List.drop_eq_nil_of_le
      rw [hlen1]
    rw [hdropnil, hcut, List.append_assoc, List.take_append, List.take_replicate]
    have e3 : min (n - sBuf.length) n = n - sBuf.length := by omega
    rw [e3]
    simp [List.append_assoc]
  simp only [ecdsa_asn1_to_fixed, h, ← hn, ← hrB, ← hsB]
  rw [hw1]
  dsimp only
  rw [hw2]

/-- Claim C9: `ecdsa_sig_from_fixed` fails for every input byte string whose
length is not exactly `2 * fixed_len(curve)`, where the fixed width is 32 for
P-256 and secp256k1, 48 for P-384 and 66 for P-521; for inputs of exactly
that length it splits at the midpoint and interprets each half as a
big-endian unsigned integer. -/
theorem claim_C9_fixed_length_check :
    (∀ alg sig, sig.length ≠ 2 * ecdsa_fixed_number_byte_size alg →
      ecdsa_sig_from_fixed alg sig = .error ()) ∧
    (∀ alg sig, sig.length = 2 * ecdsa_fixed_number_byte_size alg →
      ecdsa_sig_from_fixed alg sig =
        .ok (beBytesToNat (sig.take (ecdsa_fixed_number_byte_size alg)),
          beBytesToNat (sig.drop (ecdsa_fixed_number_byte_size alg)))) ∧
    ecdsa_fixed_number_byte_size .ECDSA_P256 = 32 ∧
    ecdsa_fixed_number_byte_size .ECDSA_P256K1 = 32 ∧
    ecdsa_fixed_number_byte_size .ECDSA_P384 = 48 ∧
    ecdsa_fixed_number_byte_size .ECDSA_P521 = 66 := by
  refine ⟨?_, ?_, rfl, rfl, rfl, rfl⟩
  · intro alg sig hlen
    simp [ecdsa_sig_from_fixed, hlen]
  · intro alg sig hlen
    simp [ecdsa_sig_from_fixed, hlen]

/-- Witness for C9 at concrete inputs: a 10-byte input is rejected for
P-256, and a 96-byte input is accepted and split for P-384. -/
theorem claim_C9_fixed_length_check_witness :
    ecdsa_sig_from_fixed .ECDSA_P256 (List.replicate 10 0) = .error () ∧
    ecdsa_sig_from_fixed .ECDSA_P384 (List.replicate 96 1) =
      .ok (beBytesToNat ((List.replicate 96 1).take 48),
        beBytesToNat ((List.replicate 96 1).drop 48)) :=
  ⟨claim_C9_fixed_length_check.1 .ECDSA_P256 (List.replicate 10 0) (by decide),
   claim_C9_fixed_length_check.2.1 .ECDSA_P384 (List.replicate 96 1) (by decide)⟩

/-- Claim C1: for every supported curve, converting a valid fixed-width
signature to DER via `ecdsa_sig_from_fixed` plus serialization and back via
`ecdsa_asn1_to_fixed` yields exactly the original bytes; and conversely,
every minimally encoded DER signature whose components fit the curve's fixed
width converts to fixed-width and back to exactly the original DER bytes. -/
theorem claim_C1_roundtrip :
    (∀ alg (sig : List Nat), isBytes sig →
      sig.length = 2 * ecdsa_fixed_number_byte_size alg →
      beBytesToNat (sig.take (ecdsa_fixed_number_byte_size alg)) ≠ 0 →
      beBytesToNat (sig.drop (ecdsa_fixed_number_byte_size alg)) ≠ 0 →
      ∃ r s, ecdsa_sig_from_fixed alg sig = .ok (r, s) ∧
        ecdsa_asn1_to_fixed alg (ECDSA_SIG_to_bytes r s) = .value (.ok sig)) ∧
    (∀ alg (der : List Nat) r s, isBytes der →
      ECDSA_SIG_from_bytes der = some (r, s) →
      r < 256 ^ ecdsa_fixed_number_byte_size alg →
      s < 256 ^ ecdsa_fixed_number_byte_size alg →
      ∃ fx, ecdsa_asn1_to_fixed alg der = .value (.ok fx) ∧
        ecdsa_sig_from_fixed alg fx = .ok (r, s) ∧
        ECDSA_SIG_to_bytes r s = der) := by
  constructor
  · intro alg sig hbytes hlen hr0 hs0
    set n := ecdsa_fixed_number_byte_size alg with hn
    set r := beBytesToNat (sig.take n) with hrdef
    set s := beBytesToNat (sig.drop n) with hsdef
    have hbt : isBytes (sig.take n) := isBytes_mono (List.take_subset _ _) hbytes
    have hbd : isBytes (sig.drop n) := isBytes_mono (List.drop_subset _ _) hbytes
    have htl : (sig.take n).length = n := by
      rw [List.length_take]
      omega
    have hdl : (sig.drop n).length = n := by
      rw [List.length_drop]
      omega
    have hrlt : r < 256 ^ n := by
      have h0 := beBytesToNat_lt (sig.take n) hbt
      rw [htl] at h0
      exact h0
    have hslt : s < 256 ^ n := by
      have h0 := beBytesToNat_lt (sig.drop n) hbd
      rw [hdl] at h0
      exact h0
    have hn66 : n ≤ 66 := by
      rw [hn]
      cases alg <;> simp [ecdsa_fixed_number_byte_size]
    have hrc : (derIntContent r).length < 32000 := by
      have := derIntContent_length_le r n hrlt
      omega
    have hsc : (derIntContent s).length < 32000 := by
      have := derIntContent_length_le s n hslt
      omega
    refine ⟨r, s, ?_, ?_⟩
    · simp [ecdsa_sig_from_fixed, hlen, ← hn, hrdef, hsdef]
    · have hparse : ECDSA_SIG_from_bytes (ECDSA_SIG_to_bytes r s) = some (r, s) :=
        ECDSA_SIG_parse_marshal r s hr0 hs0 hrc hsc
      have hrlen : (natToBEBytes r).length ≤ n := natToBEBytes_length_le n r hrlt
      have hslen : (natToBEBytes s).length ≤ n := natToBEBytes_length_le n s hslt
      rw [ecdsa_asn1_to_fixed_eq alg _ r s hparse (hn ▸ hrlen) (hn ▸ hslen)]
      have hpadr : List.replicate (n - (natToBEBytes r).length) 0 ++ natToBEBytes r =
          sig.take n := by
        have := pad_natToBEBytes (sig.take n) hbt
        rw [htl, ← hrdef] at this
        exact this
      have hpads : List.replicate (n - (natToBEBytes s).length) 0 ++ natToBEBytes s =
          sig.drop n := by
        have := pad_natToBEBytes (sig.drop n) hbd
        rw [hdl, ← hsdef] at this
        exact this
      rw [← hn, List.append_assoc, hpads]
      rw [show List.replicate (n - (natToBEBytes r).length) 0 ++
        (natToBEBytes r ++ sig.drop n) =
        (List.replicate (n - (natToBEBytes r).length) 0 ++ natToBEBytes r) ++
          sig.drop n from by rw [List.append_assoc]]
      rw [hpadr, List.take_append_drop]
  · intro alg der r s hbytes hparse hrlt hslt
    set n := ecdsa_fixed_number_byte_size alg with hn
    have hrlen : (natToBEBytes r).length ≤ n := natToBEBytes_length_le n r hrlt
    have hslen : (natToBEBytes s).length ≤ n := natToBEBytes_length_le n s hslt
    obtain ⟨hder, hr1, hs1⟩ := ECDSA_SIG_marshal_parse der r s hbytes hparse
    refine ⟨_, ecdsa_asn1_to_fixed_eq alg der r s hparse (hn ▸ hrlen) (hn ▸ hslen), ?_, hder⟩
    have hprelen : (List.replicate (n - (natToBEBytes r).length) 0 ++
        natToBEBytes r).length = n := by
      simp
      omega
    have hsuflen : (List.replicate (n - (natToBEBytes s).length) 0 ++
        natToBEBytes s).length = n := by
      simp
      omega
    have htotlen : (List.replicate (n - (natToBEBytes r).length) 0 ++
        natToBEBytes r ++
        (List.replicate (n - (natToBEBytes s).length) 0 ++
          natToBEBytes s)).length = 2 * n := by
      rw [List.length_append, hprelen, hsuflen]
      omega
    have htk := take_left_of_length
      (List.replicate (n - (natToBEBytes r).length) 0 ++ natToBEBytes r)
      (List.replicate (n - (natToBEBytes s).length) 0 ++ natToBEBytes s) n hprelen
    have hdp := drop_left_of_length
      (List.replicate (n - (natToBEBytes r).length) 0 ++ natToBEBytes r)
      (List.replicate (n - (natToBEBytes s).length) 0 ++ natToBEBytes s) n hprelen
    have hrval : beBytesToNat (List.replicate (n - (natToBEBytes r).length) 0 ++
        natToBEBytes r) = r := by
      rw [beBytesToNat_replicate_zero_append, beBytesToNat_natToBEBytes]
    have hsval : beBytesToNat (List.replicate (n - (natToBEBytes s).length) 0 ++
        natToBEBytes s) = s := by
      rw [beBytesToNat_replicate_zero_append, beBytesToNat_natToBEBytes]
    have hcond : ¬((List.replicate (n - (natToBEBytes r).length) 0 ++ natToBEBytes r ++
        (List.replicate (n - (natToBEBytes s).length) 0 ++
          natToBEBytes s)).length ≠ 2 * n) := by
      rw [htotlen]
      simp
    simp only [ecdsa_sig_from_fixed]
    rw [← hn]
    rw [if_neg hcond, htk, hdp, hrval, hsval]

/-- Witness for C1 at a concrete P-256 fixed-width signature with r = 1 and
s = 2, and at its DER serialization. -/
theorem claim_C1_roundtrip_witness :
    (∃ r s, ecdsa_sig_from_fixed .ECDSA_P256
        (List.replicate 31 0 ++ [1] ++ (List.replicate 31 0 ++ [2])) = .ok (r, s) ∧
      ecdsa_asn1_to_fixed .ECDSA_P256 (ECDSA_SIG_to_bytes r s) =
        .value (.ok (List.replicate 31 0 ++ [1] ++ (List.replicate 31 0 ++ [2])))) ∧
    (∃ fx, ecdsa_asn1_to_fixed .ECDSA_P256 [0x30, 6, 2, 1, 1, 2, 1, 2] =
        .value (.ok fx) ∧
      ecdsa_sig_from_fixed .ECDSA_P256 fx = .ok (1, 2) ∧
      ECDSA_SIG_to_bytes 1 2 = [0x30, 6, 2, 1, 1, 2, 1, 2]) := by
  constructor
  · have h := claim_C1_roundtrip.1 .ECDSA_P256
      (List.replicate 31 0 ++ [1] ++ (List.replicate 31 0 ++ [2]))
      (by decide) (by decide) (by decide) (by decide)
    simpa using h
  · exact claim_C1_roundtrip.2 .ECDSA_P256 [0x30, 6, 2, 1, 1, 2, 1, 2] 1 2
      (by decide) (by decide) (by decide) (by decide)

/-- Claim C2: for a DER ECDSA signature whose components fit the curve's
fixed width, `ecdsa_asn1_to_fixed` writes each component right-aligned into
a zero-initialized field of exactly `fixed_len(curve)` bytes — left-padded
with zero bytes, never truncated or right-padded (the component values are
recoverable from the fields); when the r component encodes to fewer bytes
than the fixed width the output starts with a zero byte. -/
theorem claim_C2_left_padding (alg : AlgorithmID) (der : List Nat) (r s : Nat)
    (hparse : ECDSA_SIG_from_bytes der = some (r, s))
    (hr : (natToBEBytes r).length ≤ ecdsa_fixed_number_byte_size alg)
    (hs : (natToBEBytes s).length ≤ ecdsa_fixed_number_byte_size alg) :
    ∃ out, ecdsa_asn1_to_fixed alg der = .value (.ok out) ∧
      out.length = 2 * ecdsa_fixed_number_byte_size alg ∧
      out.take (ecdsa_fixed_number_byte_size alg) =
        List.replicate (ecdsa_fixed_number_byte_size alg -
          (natToBEBytes r).length) 0 ++ natToBEBytes r ∧
      out.drop (ecdsa_fixed_number_byte_size alg) =
        List.replicate (ecdsa_fixed_number_byte_size alg -
          (natToBEBytes s).length) 0 ++ natToBEBytes s ∧
      beBytesToNat (out.take (ecdsa_fixed_number_byte_size alg)) = r ∧
      beBytesToNat (out.drop (ecdsa_fixed_number_byte_size alg)) = s ∧
      ((natToBEBytes r).length < ecdsa_fixed_number_byte_size alg →
        out.head? = some 0) := by
  set n := ecdsa_fixed_number_byte_size alg with hn
  have hprelen : (List.replicate (n - (natToBEBytes r).length) 0 ++
      natToBEBytes r).length = n := by
    simp
    omega
  have htk := take_left_of_length
    (List.replicate (n - (natToBEBytes r).length) 0 ++ natToBEBytes r)
    (List.replicate (n - (natToBEBytes s).length) 0 ++ natToBEBytes s) n hprelen
  have hdp := drop_left_of_length
    (List.replicate (n - (natToBEBytes r).length) 0 ++ natToBEBytes r)
    (List.replicate (n - (natToBEBytes s).length) 0 ++ natToBEBytes s) n hprelen
  refine ⟨_, ecdsa_asn1_to_fixed_eq alg der r s hparse (hn ▸ hr) (hn ▸ hs),
    ?_, ?_, ?_, ?_, ?_, ?_⟩
  · rw [← hn]
    simp
    omega
  · rw [← hn, htk]
  · rw [← hn, hdp]
  · rw [← hn, htk, beBytesToNat_replicate_zero_append, beBytesToNat_natToBEBytes]
  · rw [← hn, hdp, beBytesToNat_replicate_zero_append, beBytesToNat_natToBEBytes]
  · intro hlt
    rw [← hn]
    have hk : n - (natToBEBytes r).length =
        (n - (natToBEBytes r).length - 1) + 1 := by omega
    rw [hk, List.replicate_succ]
    simp

/-- Witness for C2: the P-256 DER signature with r = 256 ^ 30 (which encodes
to 31 bytes) and s = 1 converts to a fixed-width signature whose 32-byte r
field carries a leading zero byte. -/
theorem claim_C2_left_padding_witness :
    ∃ out, ecdsa_asn1_to_fixed .ECDSA_P256
        ([0x30, 36, 2, 31, 1] ++ List.replicate 30 0 ++ [2, 1, 1]) =
        .value (.ok out) ∧
      out.length = 2 * ecdsa_fixed_number_byte_size .ECDSA_P256 ∧
      out.take (ecdsa_fixed_number_byte_size .ECDSA_P256) =
        List.replicate (ecdsa_fixed_number_byte_size .ECDSA_P256 -
          (natToBEBytes (256 ^ 30)).length) 0 ++ natToBEBytes (256 ^ 30) ∧
      out.drop (ecdsa_fixed_number_byte_size .ECDSA_P256) =
        List.replicate (ecdsa_fixed_number_byte_size .ECDSA_P256 -
          (natToBEBytes 1).length) 0 ++ natToBEBytes 1 ∧
      beBytesToNat (out.take (ecdsa_fixed_number_byte_size .ECDSA_P256)) =
        256 ^ 30 ∧
      beBytesToNat (out.drop (ecdsa_fixed_number_byte_size .ECDSA_P256)) = 1 ∧
      ((natToBEBytes (256 ^ 30)).length < ecdsa_fixed_number_byte_size
          .ECDSA_P256 → out.head? = some 0) :=
  claim_C2_left_padding .ECDSA_P256
    ([0x30, 36, 2, 31, 1] ++ List.replicate 30 0 ++ [2, 1, 1]) (256 ^ 30) 1
    (by decide) (by decide) (by decide)

/-- Claim C3: `validate_evp_key` checks the embedded curve NID first — on a
mismatch it returns `WrongAlgorithm` whatever the native consistency verdict
is, so the native check is not reached — then runs the native consistency
check (`InconsistentComponents` on failure) and succeeds otherwise; in
particular a key on curve A's group validated against curve B's NID yields
`WrongAlgorithm` for every pair of distinct supported curves. -/
theorem claim_C3_validate_order :
    (∀ (g : ECGroup) (p : Option ECPoint) (pr : Option Nat) (c : Bool)
      (expected : Int), g.nid ≠ expected →
      validate_evp_key ⟨some ⟨some g, p, pr, c⟩⟩ expected =
        .error .wrongAlgorithm) ∧
    (∀ (g : ECGroup) (p : Option ECPoint) (pr : Option Nat) (expected : Int),
      g.nid = expected →
      validate_evp_key ⟨some ⟨some g, p, pr, false⟩⟩ expected =
        .error .inconsistentComponents) ∧
    (∀ (g : ECGroup) (p : Option ECPoint) (pr : Option Nat) (expected : Int),
      g.nid = expected →
      validate_evp_key ⟨some ⟨some g, p, pr, true⟩⟩ expected = .ok ()) ∧
    (∀ (A B : AlgorithmID) (p : Option ECPoint) (pr : Option Nat) (c : Bool),
      A ≠ B →
      validate_evp_key ⟨some ⟨some ⟨A.nid⟩, p, pr, c⟩⟩ B.nid =
        .error .wrongAlgorithm) := by
  refine ⟨?_, ?_, ?_, ?_⟩
  · intro g p pr c expected hne
    simp [validate_evp_key, hne]
  · intro g p pr expected heq
    simp [validate_evp_key, heq]
  · intro g p pr expected heq
    simp [validate_evp_key, heq]
  · intro A B p pr c hne
    have hnid : AlgorithmID.nid A ≠ AlgorithmID.nid B := by
      cases A <;> cases B <;> simp_all [AlgorithmID.nid]
    simp [validate_evp_key, hnid]

/-- Witness for C3: a P-256 key validated against the P-384 NID is rejected
as `WrongAlgorithm`; with matching NIDs a failing native check yields
`InconsistentComponents` and a passing one succeeds. -/
theorem claim_C3_validate_order_witness :
    validate_evp_key
        ⟨some ⟨some ⟨AlgorithmID.nid .ECDSA_P256⟩, none, none, true⟩⟩
        (AlgorithmID.nid .ECDSA_P384) = .error .wrongAlgorithm ∧
    validate_evp_key ⟨some ⟨some ⟨(415 : Int)⟩, none, none, false⟩⟩ 415 =
      .error .inconsistentComponents ∧
    validate_evp_key ⟨some ⟨some ⟨(415 : Int)⟩, none, none, true⟩⟩ 415 =
      .ok () :=
  ⟨claim_C3_validate_order.2.2.2 .ECDSA_P256 .ECDSA_P384 none none true
      (by decide),
   claim_C3_validate_order.2.1 ⟨415⟩ none none 415 rfl,
   claim_C3_validate_order.2.2.1 ⟨415⟩ none none 415 rfl⟩

/-- Claim C4: the EC key constructors — from a public point, and from
public plus private components — run `validate_evp_key` on the constructed
key before returning it: every key they return has passed validation against
the group's own curve NID, and when validation of the assembled key fails
they return an error, never the key. -/
theorem claim_C4_construct_then_validate :
    (∀ (env : NativeEnv) (g : ECGroup) (p : ECPoint) (pk : EVP_PKEY),
      evp_pkey_from_public_point env g p = .ok pk →
      validate_evp_key pk g.nid = .ok ()) ∧
    (∀ (env : NativeEnv) (g : ECGroup) (p : ECPoint) (pr : Nat)
      (pk : EVP_PKEY), evp_key_from_public_private env g p pr = .ok pk →
      validate_evp_key pk g.nid = .ok ()) ∧
    (∀ (env : NativeEnv) (g : ECGroup) (p : ECPoint) (e : KeyRejected),
      validate_evp_key ⟨some ⟨some g, some p, none,
        env.check (some g) (some p) none⟩⟩ g.nid = .error e →
      ∀ pk, evp_pkey_from_public_point env g p ≠ .ok pk) ∧
    (∀ (env : NativeEnv) (g : ECGroup) (p : ECPoint) (pr : Nat)
      (e : KeyRejected),
      validate_evp_key ⟨some ⟨some g, some p, some pr,
        env.check (some g) (some p) (some pr)⟩⟩ g.nid = .error e →
      ∀ pk, evp_key_from_public_private env g p pr ≠ .ok pk) := by
  refine ⟨?_, ?_, ?_, ?_⟩
  · intro env g p pk h
    unfold evp_pkey_from_public_point at h
    split_ifs at h
    dsimp only at h
    split at h
    · exact absurd h (by simp)
    · rename_i u heq
      cases u
      cases h
      exact heq
  · intro env g p pr pk h
    unfold evp_key_from_public_private at h
    split_ifs at h
    dsimp only at h
    split at h
    · exact absurd h (by simp)
    · rename_i u heq
      cases u
      cases h
      exact heq
  · intro env g p e hval pk h
    unfold evp_pkey_from_public_point at h
    split_ifs at h
    dsimp only at h
    rw [hval] at h
    exact absurd h (by simp)
  · intro env g p pr e hval pk h
    unfold evp_key_from_public_private at h
    split_ifs at h
    dsimp only at h
    rw [hval] at h
    exact absurd h (by simp)

/-- Witness for C4: with an all-success environment whose native check
accepts everything, the constructors return a validated key; with a check
that rejects everything, construction from a public point fails. -/
theorem claim_C4_construct_then_validate_witness :
    validate_evp_key
        ⟨some ⟨some ⟨415⟩, some ⟨[4, 1, 2]⟩, none, true⟩⟩ 415 = .ok () ∧
    (∀ pk, evp_pkey_from_public_point
        ⟨true, true, true, true, true, true, fun _ _ _ => false⟩
        ⟨415⟩ ⟨[4, 1, 2]⟩ ≠ .ok pk) := by
  constructor
  · exact claim_C4_construct_then_validate.1
      ⟨true, true, true, true, true, true, fun _ _ _ => true⟩ ⟨415⟩ ⟨[4, 1, 2]⟩
      ⟨some ⟨some ⟨415⟩, some ⟨[4, 1, 2]⟩, none, true⟩⟩ rfl
  · exact claim_C4_construct_then_validate.2.2.1
      ⟨true, true, true, true, true, true, fun _ _ _ => false⟩ ⟨415⟩ ⟨[4, 1, 2]⟩
      .inconsistentComponents rfl

/-- Counterexample to claim C5: `ec_point_from_bytes` does not return a
distinguished invalid-encoding error — a malformed encoding (decode
rejected) and a native allocation failure produce the very same opaque
`Unspecified` value, so the two failures are indistinguishable. -/
theorem claim_C5_counterexample :
    ec_point_from_bytes ⟨true, fun _ _ => false⟩ ⟨415⟩ [4, 1, 2] =
      .error .unspecified ∧
    ec_point_from_bytes ⟨false, fun _ _ => true⟩ ⟨415⟩ [4, 1, 2] =
      .error .unspecified := by
  constructor <;> rfl

/-- Amended claim C5: for every malformed point encoding
`ec_point_from_bytes` fails with the opaque `Unspecified` error — the same
error it returns for a native allocation failure; every failure of the
function is that single error value, so callers cannot tell the two apart. -/
theorem claim_C5_amended :
    ∀ (env : PointEnv) (g : ECGroup) (bytes : List Nat),
      (env.oct2pointOk g bytes = false →
        ec_point_from_bytes env g bytes = .error .unspecified) ∧
      (env.pointNewOk = false →
        ec_point_from_bytes env g bytes = .error .unspecified) ∧
      (∀ e, ec_point_from_bytes env g bytes = .error e → e = .unspecified) := by
  intro env g bytes
  refine ⟨?_, ?_, ?_⟩
  · intro hdec
    by_cases hp : env.pointNewOk = false <;>
      simp [ec_point_from_bytes, hp, hdec]
  · intro hp
    simp [ec_point_from_bytes, hp]
  · intro e _
    cases e
    rfl

/-- Witness for C5 (amended) at a concrete rejecting decoder and a concrete
failing allocator. -/
theorem claim_C5_amended_witness :
    ec_point_from_bytes ⟨true, fun _ _ => false⟩ ⟨714⟩ [2, 5] =
      .error .unspecified ∧
    ec_point_from_bytes ⟨false, fun _ _ => true⟩ ⟨714⟩ [2, 5] =
      .error .unspecified :=
  ⟨(claim_C5_amended ⟨true, fun _ _ => false⟩ ⟨714⟩ [2, 5]).1 rfl,
   (claim_C5_amended ⟨false, fun _ _ => true⟩ ⟨714⟩ [2, 5]).2.1 rfl⟩

/-- Counterexample to claim C6: RSA `KeyPair::sign` with a signature buffer
whose length (here 0) differs from the produced signature length (here a
successful 256-byte native signature, the modulus length) panics in
`copy_from_slice` instead of returning an error. -/
theorem claim_C6_counterexample :
    rsa_keypair_sign (.ok (List.replicate 256 0)) 0 = .panics := by
  simp [rsa_keypair_sign]

/-- Amended claim C6: the public operations modelled here report failure by
returning an error and do not panic, with one exception: `KeyPair::sign`
panics exactly when the native signing step succeeds and the caller's buffer
length differs from the produced signature length (the modulus length).
Nonce-sequence construction never panics: its key type always carries 16
bytes, so the AES-128 key-length check — the only failure the `unwrap`
could hit — always passes. -/
theorem claim_C6_amended :
    (∀ (nativeSign : Except Unspecified (List Nat)) (modLen sigLen : Nat),
      (∀ bs, nativeSign = .ok bs → bs.length = modLen) → sigLen = modLen →
      rsa_keypair_sign nativeSign sigLen ≠ .panics) ∧
    (∀ (nativeSign : Except Unspecified (List Nat)) (modLen sigLen : Nat)
      (bs : List Nat), nativeSign = .ok bs → bs.length = modLen →
      sigLen ≠ modLen → rsa_keypair_sign nativeSign sigLen = .panics) ∧
    (∀ (key : NonceSequenceKey) (p : Nat),
      using_key_and_position key p =
        .value { aes_key := { keyBytes := key.bytes }, position := p }) := by
  refine ⟨?_, ?_, ?_⟩
  · intro nativeSign modLen sigLen hmod hlen
    rcases nativeSign with e | bs
    · simp [rsa_keypair_sign]
    · have hbs : bs.length = modLen := hmod bs rfl
      simp [rsa_keypair_sign, hlen, hbs]
  · intro nativeSign modLen sigLen bs hok hbs hne
    subst hok
    simp only [rsa_keypair_sign]
    rw [if_neg (by omega)]
  · intro key p
    simp [using_key_and_position, SymmetricCipherKey.aes128, key.len16]

/-- Witness for C6 (amended): a correct-length buffer does not panic, a
wrong-length buffer panics, and constructing an unpredictable nonce sequence
from a concrete 16-byte key succeeds. -/
theorem claim_C6_amended_witness :
    rsa_keypair_sign (.ok (List.replicate 256 0)) 256 ≠ .panics ∧
    rsa_keypair_sign (.ok (List.replicate 256 0)) 5 = .panics ∧
    using_key_and_position ⟨List.replicate 16 7, by decide⟩ 42 =
      .value ⟨⟨List.replicate 16 7⟩, 42⟩ :=
  ⟨claim_C6_amended.1 (.ok (List.replicate 256 0)) 256 256
      (by intro bs hbs; cases hbs; simp) rfl,
   claim_C6_amended.2.1 (.ok (List.replicate 256 0)) 256 5
      (List.replicate 256 0) rfl (by simp) (by decide),
   claim_C6_amended.2.2 ⟨List.replicate 16 7, by decide⟩ 42⟩

/-- Claim C7: `PredictableNonceSequence::advance` always returns `Ok` (on
counter overflow it wraps modulo `2 ^ 64` instead of failing), the counter
increases by exactly one per advance, and the returned 12-byte nonce is 4
zero bytes followed by the big-endian 64-bit post-increment counter. -/
theorem claim_C7_predictable_advance :
    ∀ p : Nat, p < 2 ^ 64 →
      PredictableNonceSequence.advance ⟨p⟩ =
        (⟨(p + 1) % 2 ^ 64⟩,
          .ok (List.replicate 4 0 ++ u64ToBEBytes ((p + 1) % 2 ^ 64))) ∧
      (List.replicate 4 0 ++ u64ToBEBytes ((p + 1) % 2 ^ 64)).length = 12 ∧
      (p + 1 < 2 ^ 64 → (p + 1) % 2 ^ 64 = p + 1) ∧
      (p = 2 ^ 64 - 1 → (p + 1) % 2 ^ 64 = 0) := by
  intro p _
  refine ⟨rfl, by simp [u64ToBEBytes], ?_, ?_⟩
  · intro hlt
    exact Nat.mod_eq_of_lt hlt
  · intro hmax
    subst hmax
    simp

/-- Witness for C7 at the spec's concrete vector: a sequence at
`0x24CB016EA` advances once to the nonce
`00 00 00 00 00 00 00 02 4C B0 16 EB`. -/
theorem claim_C7_predictable_advance_witness :
    PredictableNonceSequence.advance ⟨0x24CB016EA⟩ =
      (⟨0x24CB016EB⟩,
        .ok [0, 0, 0, 0, 0, 0, 0, 0x02, 0x4C, 0xB0, 0x16, 0xEB]) :=
  ((claim_C7_predictable_advance 0x24CB016EA (by norm_num)).1).trans (by rfl)

/-- Claim C8: two `UnpredictableNonceSequence` instances constructed with
the same 128-bit key and the same starting counter produce identical nonce
streams — construction is deterministic and, for every n (in particular all
n up to 100), the n-th nonce of the first sequence equals the n-th nonce of
the second, whatever block cipher implements `encrypt_block`. -/
theorem claim_C8_deterministic_stream :
    ∀ (aesEnc : SymmetricCipherKey → Block → Except Unspecified Block)
      (key : NonceSequenceKey) (p : Nat),
      ∃ s1 s2, using_key_and_position key p = .value s1 ∧
        using_key_and_position key p = .value s2 ∧
        ∀ n, UnpredictableNonceSequence.nthNonce aesEnc s1 n =
          UnpredictableNonceSequence.nthNonce aesEnc s2 n := by
  intro aesEnc key p
  refine ⟨⟨⟨key.bytes⟩, p⟩, ⟨⟨key.bytes⟩, p⟩, ?_, ?_, fun n => rfl⟩ <;>
    simp [using_key_and_position, SymmetricCipherKey.aes128, key.len16]

theorem rsa_keypair_new_ok (env : RsaEnv) (key : RsaEvpPkey) (kp : RsaKeyPair)
    (h : RsaKeyPair.new env key = .ok kp) :
    kp.evp_pkey = key ∧ is_rsa_key key = true ∧
    2048 ≤ key.keySizeBits ∧ key.keySizeBits ≤ 8192 := by
  unfold RsaKeyPair.new at h
  split at h
  · exact absurd h (by simp)
  · rename_i u heq
    cases u
    split at h
    · exact absurd h (by simp)
    · rename_i pub hpub
      cases h
      unfold validate_private_key at heq
      split_ifs at heq with h1 h2
      · refine ⟨rfl, ?_, h2.1, h2.2⟩
        cases hb : is_rsa_key key
        · exact absurd hb h1
        · rfl

/-- Claim C10: every RSA `KeyPair` returned by `generate`, `from_pkcs8` or
`from_der` holds an RSA key (id `EVP_PKEY_RSA` or `EVP_PKEY_RSA_PSS`) whose
modulus bit size lies between 2048 and 8192 inclusive; a parsed key that is
not an RSA key, or whose size falls outside that range, is rejected by
`KeyPair::new` with a `KeyRejected` error instead of producing a key pair. -/
theorem claim_C10_rsa_keypair_invariant :
    (∀ (env : RsaEnv) (parsed : Except KeyRejected RsaEvpPkey)
      (kp : RsaKeyPair), RsaKeyPair.from_pkcs8 env parsed = .ok kp →
      is_rsa_key kp.evp_pkey = true ∧
      2048 ≤ kp.evp_pkey.keySizeBits ∧ kp.evp_pkey.keySizeBits ≤ 8192) ∧
    (∀ (env : RsaEnv) (parsed : Except KeyRejected RsaEvpPkey)
      (kp : RsaKeyPair), RsaKeyPair.from_der env parsed = .ok kp →
      is_rsa_key kp.evp_pkey = true ∧
      2048 ≤ kp.evp_pkey.keySizeBits ∧ kp.evp_pkey.keySizeBits ≤ 8192) ∧
    (∀ (env : RsaEnv) (generated : Except Unspecified RsaEvpPkey)
      (kp : RsaKeyPair), RsaKeyPair.generate env generated = .ok kp →
      is_rsa_key kp.evp_pkey = true ∧
      2048 ≤ kp.evp_pkey.keySizeBits ∧ kp.evp_pkey.keySizeBits ≤ 8192) ∧
    (∀ (env : RsaEnv) (key : RsaEvpPkey),
      (is_rsa_key key = false ∨ key.keySizeBits < 2048 ∨
        8192 < key.keySizeBits) →
      ∃ e, RsaKeyPair.new env key = .error e) := by
  refine ⟨?_, ?_, ?_, ?_⟩
  · intro env parsed kp h
    rcases parsed with e | key
    · simp [RsaKeyPair.from_pkcs8] at h
    · unfold RsaKeyPair.from_pkcs8 at h
      dsimp only at h
      obtain ⟨hkp, hrsa, hlo, hhi⟩ := rsa_keypair_new_ok env key kp h
      rw [hkp]
      exact ⟨hrsa, hlo, hhi⟩
  · intro env parsed kp h
    rcases parsed with e | key
    · simp [RsaKeyPair.from_der] at h
    · unfold RsaKeyPair.from_der at h
      dsimp only at h
      obtain ⟨hkp, hrsa, hlo, hhi⟩ := rsa_keypair_new_ok env key kp h
      rw [hkp]
      exact ⟨hrsa, hlo, hhi⟩
  · intro env generated kp h
    rcases generated with e | key
    · simp [RsaKeyPair.generate] at h
    · unfold RsaKeyPair.generate at h
      dsimp only at h
      rcases hnew : RsaKeyPair.new env key with e2 | kp2
      · rw [hnew] at h
        exact absurd h (by simp)
      · rw [hnew] at h
        dsimp only at h
        have h2 : kp2 = kp := by injection h
        rw [← h2]
        obtain ⟨hkp, hrsa, hlo, hhi⟩ := rsa_keypair_new_ok env key kp2 hnew
        rw [hkp]
        exact ⟨hrsa, hlo, hhi⟩
  · intro env key hbad
    have hval : validate_private_key key = .error .unspecified := by
      unfold validate_private_key
      split_ifs with hA hB
      · rfl
      · exfalso
        rcases hbad with h1 | h2 | h3
        · exact hA h1
        · omega
        · omega
      · rfl
    refine ⟨.unspecified, ?_⟩
    unfold RsaKeyPair.new
    rw [hval]

/-- Witness for C10: parsing a 2048-bit RSA key (id 6) yields a key pair
carrying it, and a non-RSA key (id 0) is rejected. -/
theorem claim_C10_rsa_keypair_invariant_witness :
    (is_rsa_key (RsaKeyPair.mk ⟨6, 2048⟩ []).evp_pkey = true ∧
      2048 ≤ (RsaKeyPair.mk ⟨6, 2048⟩ []).evp_pkey.keySizeBits ∧
      (RsaKeyPair.mk ⟨6, 2048⟩ []).evp_pkey.keySizeBits ≤ 8192) ∧
    (∃ e, RsaKeyPair.new ⟨fun _ => some []⟩ ⟨0, 4096⟩ = .error e) :=
  ⟨claim_C10_rsa_keypair_invariant.1 ⟨fun _ => some []⟩ (.ok ⟨6, 2048⟩)
      (RsaKeyPair.mk ⟨6, 2048⟩ []) rfl,
   claim_C10_rsa_keypair_invariant.2.2.2 ⟨fun _ => some []⟩ ⟨0, 4096⟩
      (Or.inl rfl)⟩

end AwsLcRs
